import Mathlib

/-!
Verification development for the TLF extractor (`extract_tlfs.py`).

A source document is modelled as a `List (List String)`: one entry per page,
each page being the raw lines of its extracted text (the result of Python's
`str.splitlines` on the page text).  All string processing mirrors the Python
source: `pyStrip` models `str.strip`, `stripLines` models the
`[line.strip() for line in text.splitlines() if line.strip()]` idiom,
`splitRuns2` models `re.split(r'\s{2,}', s)`, `matchesHeading` models
`re.match(r'^(Table|Figure)\s*14[.\-][\d.\-]+', line, re.IGNORECASE)`.
-/

namespace Tfl

/-- Python `str.strip()` on one line: remove leading and trailing whitespace. -/
def trimChars (l : List Char) : List Char :=
  (((l.dropWhile Char.isWhitespace).reverse.dropWhile Char.isWhitespace)).reverse

/-- Python `str.strip()` lifted to `String`. -/
def pyStrip (s : String) : String :=
  String.mk (trimChars s.toList)

/-- `str.lower()` (ASCII case mapping, which is all this document family uses). -/
def lowerS (s : String) : String :=
  String.mk (s.toList.map Char.toLower)

/-- `str.upper()`. -/
def upperS (s : String) : String :=
  String.mk (s.toList.map Char.toUpper)

/-- `s.startswith(pre)`. -/
def startsWithL (s pre : String) : Bool :=
  pre.toList.isPrefixOf s.toList

/-- `s[n:]` for a non-negative `n`: drop the first `n` characters. -/
def dropS (s : String) (n : Nat) : String :=
  String.mk (s.toList.drop n)

/-- `s[:-n]` for a positive `n`: all but the last `n` characters. -/
def dropRightS (s : String) (n : Nat) : String :=
  String.mk (s.toList.take (s.toList.length - n))

/-- `[line.strip() for line in raw if line.strip()]`: the whitespace-trimmed
non-empty lines of a page (lines 29 and 242 of the source). -/
def stripLines (raw : List String) : List String :=
  (raw.map pyStrip).filter (fun l => l ≠ "")

/-- Substring test: models Python's `"table" in line` (line 39). -/
def hasSubstr (pat : List Char) : List Char → Bool
  | [] => pat.isEmpty
  | l@(_ :: rest) => pat.isPrefixOf l || hasSubstr pat rest

/-- The part of the heading regex after the `(Table|Figure)` alternative:
`\s*14[.\-][\d.\-]+` (applied to the lowercased remainder of the line). -/
def headingTail (cs : List Char) : Bool :=
  match cs.dropWhile Char.isWhitespace with
  | '1' :: '4' :: s :: d :: _ =>
      (s = '.' || s = '-') && (d.isDigit || d = '.' || d = '-')
  | _ => false

/-- `re.match(r'^(Table|Figure)\s*14[.\-][\d.\-]+', line, re.IGNORECASE)`
(line 36 of the source). -/
def matchesHeading (line : String) : Bool :=
  let cs := line.toList.map Char.toLower
  if ("table".toList).isPrefixOf cs then headingTail (cs.drop 5)
  else if ("figure".toList).isPrefixOf cs then headingTail (cs.drop 6)
  else false

/-- Text after the first `':'` of a line: Python `line.split(":", 1)[1]`
(empty when there is no colon; the caller guarantees one). -/
def afterFirstColon (s : String) : String :=
  String.mk (((s.toList).dropWhile (fun c => c ≠ ':')).drop 1)

/-- Worker for `splitRuns2`: `cur` is the current piece (reversed), `ws` the
pending run of whitespace (not yet classified as separator or piece content).
A run of two or more whitespace characters separates pieces (greedily, like
`\s{2,}`); a lone whitespace character stays inside its piece. -/
def splitGo : List Char → List Char → List Char → List String
  | [], cur, ws =>
      if 2 ≤ ws.length then [String.mk cur.reverse, ""]
      else [String.mk (ws ++ cur).reverse]
  | c :: cs, cur, ws =>
      if c.isWhitespace then splitGo cs cur (c :: ws)
      else if 2 ≤ ws.length then String.mk cur.reverse :: splitGo cs [c] []
      else splitGo cs (c :: (ws ++ cur)) []

/-- `re.split(r'\s{2,}', s)` (line 55 of the source).  Always returns at
least one (possibly empty) piece, like `re.split`. -/
def splitRuns2 (s : String) : List String :=
  splitGo s.toList [] []

/-- Result of `parse_tfl_page`: the dict built at lines 60-66 of the source.
`type` is `""` when Python would hold `None` (that only happens when `id` is
`none`, and the field is then never read). -/
structure Parsed where
  id : Option String
  type : String
  title : String
  population : String
  source_program : String
  deriving Repr, DecidableEq

/-- The `source_program` loop, lines 52-58: first line (scanning the given
list in order) whose lowercase form starts with `"source:"` wins. -/
def srcFrom : List String → String
  | [] => ""
  | l :: rest =>
      if startsWithL (lowerS l) "source:" then
        (splitRuns2 (pyStrip (dropS l 7))).headD ""
      else srcFrom rest

/-- `reversed(lines[-15:])`: the last 15 lines, bottom of page first. -/
def last15rev (lines : List String) : List String :=
  (lines.drop (lines.length - 15)).reverse

/-- `parse_tfl_page` (lines 28-66 of the source). -/
def parse_tfl_page (raw : List String) : Parsed :=
  let lines := stripLines raw
  let idIdx := (lines.take 10).findIdx? matchesHeading
  let tflId : Option String :=
    match idIdx with
    | none => none
    | some i => some ((lines.get? i).getD "")
  let tflType : String :=
    match idIdx with
    | none => ""
    | some i =>
        if hasSubstr ("table".toList) (lowerS ((lines.get? i).getD "")).toList
        then "table" else "figure"
  let title : String :=
    match idIdx with
    | none => ""
    | some i => (lines.get? (i + 1)).getD ""
  let population : String :=
    match (lines.take 10).find? (fun l => startsWithL (lowerS l) "population:") with
    | none => ""
    | some l => pyStrip (afterFirstColon l)
  { id := tflId
    type := tflType
    title := title
    population := population
    source_program := srcFrom (last15rev lines) }

/-- `tfl_id.replace(" ", "_").replace("\n", "")` (lines 277 and 315 of the
source).  Both replacements are single-character, so they act characterwise. -/
def sanitizeId (s : String) : String :=
  String.mk (((s.toList.map (fun c => if c = ' ' then '_' else c))).filter
    (fun c => c ≠ '\n'))

/-- A single line qualifies as a termination heading (line 246 of the source). -/
def termLine (l : String) : Bool :=
  let u := upperS l
  startsWithL u "15. REFERENCE" || u = "15." || startsWithL u "16. APPEND" || u = "16."

/-- Termination Detector, lines 242-248: any of the first 20 trimmed
non-empty lines is a Section 15/16 heading. -/
def is_termination (raw : List String) : Bool :=
  ((stripLines raw).take 20).any termLine

/-- One TLF record: the dict built at lines 280-290 of the source.
`source_program` is `none` when the key is absent (lines 289-290). -/
structure TlfRecord where
  id : String
  type : String
  title : String
  file : String
  firstPage : Nat
  lastPage : Nat
  page_count : Nat
  population : String
  source_program : Option String
  deriving Repr, DecidableEq

/-- Scan state of the Segmentation Engine (lines 218-223 of the source).
`rtlfs` holds the records most-recent-first; in the Python code the
currently open record (`current_tfl`) is always the last element of `tlfs`
once one exists and `current_tfl is None` exactly when `tlfs` is empty,
so the open record is modelled as the head of `rtlfs`. -/
structure ScanState where
  rtlfs : List TlfRecord
  warnings : Nat
  tflPagesTotal : Nat
  tableCount : Nat
  figureCount : Nat
  deriving Repr, DecidableEq

/-- Records in scan order. -/
def tlfsOf (st : ScanState) : List TlfRecord :=
  st.rtlfs.reverse

def initState : ScanState :=
  { rtlfs := [], warnings := 0, tflPagesTotal := 0, tableCount := 0, figureCount := 0 }

/-- Extend the open record by the current page (lines 259-262 / 269-272):
`current_tfl['pages_in_source'][1] = page_num + 1; current_tfl['page_count'] += 1;
tfl_pages_total += 1`. -/
def extendCur (st : ScanState) (pageNo : Nat) : ScanState :=
  match st.rtlfs with
  | [] => st
  | c :: rest =>
      { st with
        rtlfs := { c with lastPage := pageNo, page_count := c.page_count + 1 } :: rest
        tflPagesTotal := st.tflPagesTotal + 1 }

/-- Open a new record seeded from the classified page (lines 277-298). -/
def openNew (st : ScanState) (pageNo : Nat) (p : Parsed) (tid : String) : ScanState :=
  let r : TlfRecord :=
    { id := tid
      type := p.type
      title := p.title
      file := "pdf/" ++ sanitizeId tid ++ ".pdf"
      firstPage := pageNo
      lastPage := pageNo
      page_count := 1
      population := p.population
      source_program := if p.source_program ≠ "" then some p.source_program else none }
  { st with
    rtlfs := r :: st.rtlfs
    tflPagesTotal := st.tflPagesTotal + 1
    tableCount := if p.type = "table" then st.tableCount + 1 else st.tableCount
    figureCount := if p.type = "table" then st.figureCount else st.figureCount + 1 }

/-- One non-termination page of the scan loop (lines 255-298 of the source).
`pageNo` is the 1-based page number (`page_num + 1`). -/
def scanStep (st : ScanState) (pageNo : Nat) (page : List String) : ScanState :=
  match (parse_tfl_page page).id with
  | none =>
      match st.rtlfs with
      | _ :: _ => extendCur st pageNo
      | [] =>
          -- `len(tlfs) == 0` holds here, since `current_tfl is None` iff `tlfs == []`
          { st with warnings := st.warnings + 1 }
  | some tid =>
      match st.rtlfs with
      | c :: _ =>
          if c.id = tid then extendCur st pageNo
          else openNew st pageNo (parse_tfl_page page) tid
      | [] => openNew st pageNo (parse_tfl_page page) tid

/-- The page loop, lines 238-298: scan pages in order, stopping at the first
termination page. -/
def scanPages (st : ScanState) (pageNo : Nat) : List (List String) → ScanState
  | [] => st
  | p :: rest =>
      if is_termination p then st
      else scanPages (scanStep st pageNo p) (pageNo + 1) rest

/-- The whole TLF scan of a document: pages 43 .. `doc.length`
(`for page_num in range(42, total_pages)`). -/
def runScan (doc : List (List String)) : ScanState :=
  scanPages initState 43 (doc.drop 42)

/-- The pages the loop actually processes: the prefix before the first
termination page. -/
def procPages (pages : List (List String)) : List (List String) :=
  pages.takeWhile (fun p => !is_termination p)

/-- Does the Classifier yield an identity on this page? -/
def pageHasId (p : List String) : Bool :=
  (parse_tfl_page p).id.isSome

/-- Index of the first page (in the given list) bearing a TLF identity. -/
def firstIdIdx : List (List String) → Option Nat
  | [] => none
  | p :: rest => if pageHasId p then some 0 else (firstIdIdx rest).map (· + 1)

/-- The source pages covered by the records, in record order. -/
def coveredPages (tlfs : List TlfRecord) : List Nat :=
  tlfs.flatMap (fun r => List.range' r.firstPage (r.lastPage + 1 - r.firstPage))

/-- `chainFrom a tlfs`: the records' page ranges are in order, non-empty,
pairwise non-overlapping and gap-free, with the first range starting at `a`. -/
def chainFrom : Nat → List TlfRecord → Bool
  | _, [] => true
  | a, r :: rs =>
      decide (r.firstPage = a) && decide (r.firstPage ≤ r.lastPage) &&
        chainFrom (r.lastPage + 1) rs

/-- Sum of the records' `page_count` fields. -/
def sumPC (st : ScanState) : Nat :=
  (st.rtlfs.map (fun r => r.page_count)).sum

/-! ### Timestamp (line 322 of the source) -/

/-- A value of the clock: what `datetime.now(timezone.utc)` returned. -/
structure UtcTime where
  year : Nat
  month : Nat
  day : Nat
  hour : Nat
  minute : Nat
  second : Nat
  microsecond : Nat
  deriving Repr, DecidableEq

/-- Zero-pad a number to `w` digits. -/
def padNum (w n : Nat) : String :=
  let s := toString n
  String.mk (List.replicate (w - s.length) '0') ++ s

/-- `datetime.isoformat()` of an aware UTC datetime: the fractional part is
omitted exactly when `microsecond == 0`, and the offset prints as `+00:00`. -/
def pyIsoformat (t : UtcTime) : String :=
  padNum 4 t.year ++ "-" ++ padNum 2 t.month ++ "-" ++ padNum 2 t.day ++ "T" ++
    padNum 2 t.hour ++ ":" ++ padNum 2 t.minute ++ ":" ++ padNum 2 t.second ++
    (if t.microsecond = 0 then "" else "." ++ padNum 6 t.microsecond) ++ "+00:00"

/-- `datetime.now(timezone.utc).isoformat()[:-13] + "Z"` (line 322). -/
def extractionDate (t : UtcTime) : String :=
  dropRightS (pyIsoformat t) 13 ++ "Z"

/-- Well-formed `YYYY-MM-DDTHH:MM:SSZ` timestamp shape. -/
def isIsoZ (s : String) : Bool :=
  match s.toList with
  | [y1, y2, y3, y4, '-', m1, m2, '-', d1, d2, 'T',
     h1, h2, ':', n1, n2, ':', s1, s2, 'Z'] =>
      [y1, y2, y3, y4, m1, m2, d1, d2, h1, h2, n1, n2, s1, s2].all Char.isDigit
  | _ => false

/-! ### Extraction driver (lines 194-373 of the source) -/

/-- Manifest object built at lines 319-329 of the source (narrative fields are
the constants of lines 323-327). -/
structure Manifest where
  source_file : String
  source_pages : Nat
  extraction_date : String
  narrative_file : String
  narrative_pages : Nat × Nat
  narrative_page_count : Nat
  tlfs : List TlfRecord
  deriving Repr, DecidableEq

/-- Observable side effects of the driver.  Page indices in `writePdf` /
`writeText` are the 0-based `from_page` / `to_page` arguments. -/
inductive Effect where
  | mkdir (path : String)
  | writePdf (path : String) (fromPage toPage : Nat)
  | writeText (path : String) (fromPage toPage : Nat)
  | writeJson (path : String)
  | writeCsv (path : String)
  | logError (msg : String)
  deriving Repr, DecidableEq

/-- Effects that create or modify a file. -/
def isFileWrite : Effect → Bool
  | .writePdf _ _ _ => true
  | .writeText _ _ _ => true
  | .writeJson _ => true
  | .writeCsv _ => true
  | _ => false

/-- Effects that touch the filesystem at all (files or directories). -/
def isFsEffect : Effect → Bool
  | .mkdir _ => true
  | e => isFileWrite e

/-- Result of one driver run: its effect trace, the in-memory manifest
(`none` when the run aborted before building it), and the summary counters
printed at lines 363-373. -/
structure ExtractResult where
  effects : List Effect
  manifest : Option Manifest
  tableCount : Nat
  figureCount : Nat
  tflPagesTotal : Nat
  warningsCount : Nat
  deriving Repr, DecidableEq

/-- `extract_tlfs` (lines 194-373 of the source).  `inputExists` models
`os.path.exists(input_path)`; `doc` is the page list `fitz.open` yields;
`docName` is `os.path.basename(input_path)`; `now` is the clock value.
Verbose-mode `logger.info` calls are not part of the effect trace. -/
def extract_tlfs (inputPath : String) (inputExists : Bool)
    (doc : List (List String)) (docName outputDir : String)
    (dryRun noText : Bool) (now : UtcTime) : ExtractResult :=
  if inputExists = false then
    { effects := [Effect.logError ("Input file not found: " ++ inputPath)]
      manifest := none, tableCount := 0, figureCount := 0
      tflPagesTotal := 0, warningsCount := 0 }
  else
    let dirEffects : List Effect :=
      if dryRun then [] else
        [Effect.mkdir outputDir, Effect.mkdir (outputDir ++ "/pdf")] ++
          (if noText then [] else [Effect.mkdir (outputDir ++ "/text")])
    let totalPages := doc.length
    if totalPages < 43 then
      { effects := dirEffects ++
          [Effect.logError ("Document has too few pages (" ++ toString totalPages ++
            "). Cannot extract CSR.")]
        manifest := none, tableCount := 0, figureCount := 0
        tflPagesTotal := 0, warningsCount := 0 }
    else
      let narrEffects : List Effect :=
        if dryRun then [] else
          [Effect.writePdf (outputDir ++ "/pdf/narrative_body.pdf") 0 41] ++
            (if noText then [] else
              [Effect.writeText (outputDir ++ "/text/narrative_body.txt") 0 41])
      let st := runScan doc
      let tlfs := tlfsOf st
      let tflEffects : List Effect :=
        if dryRun then [] else
          tlfs.flatMap (fun t =>
            [Effect.writePdf (outputDir ++ "/" ++ t.file) (t.firstPage - 1) (t.lastPage - 1)] ++
              (if noText then [] else
                [Effect.writeText (outputDir ++ "/text/" ++ sanitizeId t.id ++ ".txt")
                  (t.firstPage - 1) (t.lastPage - 1)]))
      let manifest : Manifest :=
        { source_file := docName
          source_pages := totalPages
          extraction_date := extractionDate now
          narrative_file := "pdf/narrative_body.pdf"
          narrative_pages := (1, 42)
          narrative_page_count := 42
          tlfs := tlfs }
      let manEffects : List Effect :=
        if dryRun then [] else
          [Effect.writeJson (outputDir ++ "/manifest.json"),
           Effect.writeCsv (outputDir ++ "/manifest.csv")]
      { effects := dirEffects ++ narrEffects ++ tflEffects ++ manEffects
        manifest := some manifest
        tableCount := st.tableCount
        figureCount := st.figureCount
        tflPagesTotal := st.tflPagesTotal
        warningsCount := st.warnings }

/-! ### Validator page-range walk (lines 133-143 of the source) -/

/-- A TLF entry as read back from a persisted manifest:
`tfl["pages_in_source"] == [startP, endP]`. -/
structure MTlfEntry where
  id : String
  startP : Nat
  endP : Nat
  deriving Repr, DecidableEq

/-- The accumulating gap/overlap checks and failure messages of
`run_validation` (only the two page-range checks are modelled; the
file-existence checks depend on the filesystem). -/
structure GapCheck where
  noGaps : Bool
  noOverlaps : Bool
  msgs : List String
  deriving Repr, DecidableEq

/-- One iteration body, lines 138-142. -/
def gapStep (acc : GapCheck) (exp : Nat) (t : MTlfEntry) : GapCheck :=
  if t.startP > exp then
    { acc with
      noGaps := false,
      msgs := acc.msgs ++ ["❌ Page gap before " ++ t.id ++ " (expected " ++
        toString exp ++ ", got " ++ toString t.startP ++ ")"] }
  else if t.startP < exp then
    { acc with
      noOverlaps := false,
      msgs := acc.msgs ++ ["❌ Page overlap at " ++ t.id ++ " (expected " ++
        toString exp ++ ", got " ++ toString t.startP ++ ")"] }
  else acc

/-- The walk over the manifest's `tlfs` list, threading
`expected_next_page = end_p + 1` (lines 134-143; `none` models the initial
`expected_next_page = None`, under which the first record is not checked). -/
def gapWalk : Option Nat → GapCheck → List MTlfEntry → GapCheck
  | _, acc, [] => acc
  | none, acc, t :: rest => gapWalk (some (t.endP + 1)) acc rest
  | some exp, acc, t :: rest => gapWalk (some (t.endP + 1)) (gapStep acc exp t) rest

/-- The page-range portion of `run_validation` applied to a manifest's
`tlfs` list. -/
def run_validation_pages (ts : List MTlfEntry) : GapCheck :=
  gapWalk none { noGaps := true, noOverlaps := true, msgs := [] } ts

/-! ### Concrete fixtures -/

/-- The Scenario 1 page text: a classifiable `Table 14.1.1` page. -/
def scn1Page : List String :=
  ["Table 14.1.1", "Demographics", "Population: Safety", "...",
   "Source:   prog1.sas   02JUN2023"]

/-- A 43-page document whose page 43 is the Scenario 1 page (pages 1-42 are
never scanned, so their content is irrelevant). -/
def scn1Doc : List (List String) :=
  List.replicate 42 [] ++ [scn1Page]

/-- The record the Segmentation Engine produces for `scn1Doc`. -/
def scn1Record : TlfRecord :=
  { id := "Table 14.1.1", type := "table", title := "Demographics",
    file := "pdf/Table_14.1.1.pdf", firstPage := 43, lastPage := 43,
    page_count := 1, population := "Safety", source_program := some "prog1.sas" }

/-- A 44-page document whose page 43 has no identifiable heading and whose
page 44 opens `Table 14.1.1`; no page is a termination page. -/
def noHeading43Doc : List (List String) :=
  List.replicate 42 [] ++ [["no heading here"], ["Table 14.1.1", "Demographics"]]

/-- The scan state after processing page 43 of `scn1Doc`. -/
def openSt : ScanState :=
  { rtlfs := [scn1Record], warnings := 0, tflPagesTotal := 1,
    tableCount := 1, figureCount := 0 }

/-- `id.replace(" ", "").replace("\n", "")`: the sanitization the spec claims
(claim C8) — spaces and newlines removed, not replaced. -/
def removeSpacesAndNewlines (s : String) : String :=
  String.mk (s.toList.filter (fun c => !(c == ' ') && !(c == '\n')))

/-! ### Chain predicates and the scan invariant -/

/-- Propositional form of `chainFrom`. -/
def chainFromP : Nat → List TlfRecord → Prop
  | _, [] => True
  | a, r :: rs =>
      r.firstPage = a ∧ r.firstPage ≤ r.lastPage ∧ chainFromP (r.lastPage + 1) rs

/-- The page number just after the chain: `a` for an empty list, otherwise the
last record's `lastPage + 1`. -/
def endNext : Nat → List TlfRecord → Nat
  | a, [] => a
  | _, r :: rs => endNext (r.lastPage + 1) rs

/-- Chain predicate on a reversed record list (most recent first), as held
in `ScanState.rtlfs`: the reversed list is a chain starting at `a` whose
last range ends at `next - 1`. -/
def rchainP : Nat → Nat → List TlfRecord → Prop
  | a, next, [] => next = a
  | a, next, c :: rest =>
      c.lastPage + 1 = next ∧ c.firstPage ≤ c.lastPage ∧ rchainP a c.firstPage rest

/-- Per-record well-formedness maintained by the scan: the page count is
determined by the range and the output file name by the id. -/
def recOK (r : TlfRecord) : Prop :=
  r.page_count = r.lastPage - r.firstPage + 1 ∧
    r.file = "pdf/" ++ sanitizeId r.id ++ ".pdf"

/-- Scan-state invariant: the records (in scan order) form a chain starting
at `a` ending just before `next` (the page about to be scanned), and each
record is well-formed. -/
def StInv (st : ScanState) (a next : Nat) : Prop :=
  rchainP a next st.rtlfs ∧ ∀ r ∈ st.rtlfs, recOK r

/-- Spec-side reading of the C7 token extraction: the text after
`"source:"`, trimmed, split on runs of two-or-more whitespace characters,
first (non-empty) token; `""` when there is none. -/
def specFirstToken (s : String) : String :=
  ((splitRuns2 (pyStrip s)).filter (fun t => t ≠ "")).headD ""

/-- Spec-side definition of the C7 claim, following its words: scan the last
15 non-empty lines in reverse (bottom of page up) for the first line whose
lowercase form starts with `"source:"`; the result is the first token of the
text after `"source:"` split on whitespace runs, absent (`""`) when no such
line exists among those 15 lines. -/
def specSourceProgram (lines : List String) : String :=
  match (lines.reverse.take 15).find? (fun l => startsWithL (lowerS l) "source:") with
  | none => ""
  | some l => specFirstToken (dropS l 7)

/-- Recursive form of the Validator's no-gap flag given the expected next
page: fails as soon as some record starts after the expected page. -/
def gapsOK : Nat → List MTlfEntry → Bool
  | _, [] => true
  | exp, t :: rest => decide (t.startP ≤ exp) && gapsOK (t.endP + 1) rest

/-- Recursive form of the Validator's no-overlap flag. -/
def overlapsOK : Nat → List MTlfEntry → Bool
  | _, [] => true
  | exp, t :: rest => decide (exp ≤ t.startP) && overlapsOK (t.endP + 1) rest

/-! ## Theorems -/

/-! ### Chain lemmas -/

theorem chainFrom_iff (l : List TlfRecord) :
    ∀ a, chainFrom a l = true ↔ chainFromP a l := by
  induction l with
  | nil => intro a; simp [chainFrom, chainFromP]
  | cons r rs ih =>
      intro a
      simp [chainFrom, chainFromP, ih, Bool.and_eq_true, decide_eq_true_iff, and_assoc]

theorem endNext_snoc (xs : List TlfRecord) (r : TlfRecord) :
    ∀ a, endNext a (xs ++ [r]) = r.lastPage + 1 := by
  induction xs with
  | nil => intro a; simp [endNext]
  | cons x xs ih => intro a; simp [endNext, ih]

theorem chainFromP_snoc (xs : List TlfRecord) (r : TlfRecord) :
    ∀ a, chainFromP a (xs ++ [r]) ↔
      chainFromP a xs ∧ r.firstPage = endNext a xs ∧ r.firstPage ≤ r.lastPage := by
  induction xs with
  | nil => intro a; simp [chainFromP, endNext]
  | cons x xs ih =>
      intro a
      simp only [List.cons_append, List.append_eq, chainFromP, endNext, ih, and_assoc]

theorem chainFromP_endNext_ge (l : List TlfRecord) :
    ∀ a, chainFromP a l → a ≤ endNext a l := by
  induction l with
  | nil => intro a _; simp [endNext]
  | cons r rs ih =>
      intro a h
      obtain ⟨h1, h2, h3⟩ := h
      have := ih (r.lastPage + 1) h3
      simp only [endNext]
      omega

theorem rchainP_le (l : List TlfRecord) :
    ∀ a next, rchainP a next l → a ≤ next := by
  induction l with
  | nil => intro a next h; simp only [rchainP] at h; omega
  | cons c rest ih =>
      intro a next h
      obtain ⟨h1, h2, h3⟩ := h
      have := ih a c.firstPage h3
      omega

theorem rchain_to_chain (l : List TlfRecord) :
    ∀ a next, rchainP a next l →
      chainFromP a l.reverse ∧ endNext a l.reverse = next := by
  induction l with
  | nil =>
      intro a next h
      exact ⟨trivial, h.symm⟩
  | cons c rest ih =>
      intro a next h
      obtain ⟨h1, h2, h3⟩ := h
      obtain ⟨ihc, ihe⟩ := ih a c.firstPage h3
      refine ⟨?_, ?_⟩
      · rw [List.reverse_cons]
        exact (chainFromP_snoc rest.reverse c a).mpr ⟨ihc, ihe.symm, h2⟩
      · rw [List.reverse_cons, endNext_snoc]
        exact h1

theorem chainFromP_covered (l : List TlfRecord) :
    ∀ a, chainFromP a l → coveredPages l = List.range' a (endNext a l - a) := by
  induction l with
  | nil => intro a _; simp [coveredPages, endNext]
  | cons r rs ih =>
      intro a h
      obtain ⟨h1, h2, h3⟩ := h
      have hge := chainFromP_endNext_ge rs (r.lastPage + 1) h3
      have hcov := ih (r.lastPage + 1) h3
      simp only [coveredPages, List.flatMap_cons] at *
      rw [hcov, h1]
      have hsplit := List.range'_append_1 a (r.lastPage + 1 - a)
        (endNext (r.lastPage + 1) rs - (r.lastPage + 1))
      have ha : a + (r.lastPage + 1 - a) = r.lastPage + 1 := by omega
      rw [ha] at hsplit
      rw [hsplit]
      have hn : endNext (r.lastPage + 1) rs - (r.lastPage + 1) + (r.lastPage + 1 - a) =
          endNext (r.lastPage + 1) rs - a := by omega
      rw [hn]
      simp [endNext]

/-! ### Scan lemmas -/

theorem extendCur_inv (st : ScanState) (a next : Nat) (c : TlfRecord)
    (rest : List TlfRecord) (hr : st.rtlfs = c :: rest)
    (hch : rchainP a next st.rtlfs) (hrec : ∀ r ∈ st.rtlfs, recOK r) :
    StInv (extendCur st next) a (next + 1) ∧ (extendCur st next).rtlfs ≠ [] ∧
      (extendCur st next).warnings = st.warnings ∧
      sumPC (extendCur st next) = sumPC st + 1 := by
  rw [hr] at hch
  obtain ⟨h1, h2, h3⟩ := hch
  have hcOK : recOK c := hrec c (by rw [hr]; exact List.mem_cons_self c rest)
  have hres : extendCur st next =
      { st with
        rtlfs := { c with lastPage := next, page_count := c.page_count + 1 } :: rest,
        tflPagesTotal := st.tflPagesTotal + 1 } := by
    simp [extendCur, hr]
  refine ⟨⟨?_, ?_⟩, ?_, ?_, ?_⟩
  · rw [hres]
    exact ⟨rfl, by show c.firstPage ≤ next; omega, h3⟩
  · rw [hres]
    intro r hmem
    rcases List.mem_cons.mp hmem with hEq | hmem2
    · subst hEq
      refine ⟨?_, hcOK.2⟩
      have hpc := hcOK.1
      show c.page_count + 1 = next - c.firstPage + 1
      omega
    · exact hrec r (by rw [hr]; exact List.mem_cons_of_mem c hmem2)
  · rw [hres]; simp
  · rw [hres]
  · rw [hres]
    simp only [sumPC, hr, List.map_cons, List.sum_cons]
    omega

theorem openNew_inv (st : ScanState) (a next : Nat) (p : Parsed) (tid : String)
    (hch : rchainP a next st.rtlfs) (hrec : ∀ r ∈ st.rtlfs, recOK r) :
    StInv (openNew st next p tid) a (next + 1) ∧ (openNew st next p tid).rtlfs ≠ [] ∧
      (openNew st next p tid).warnings = st.warnings ∧
      sumPC (openNew st next p tid) = sumPC st + 1 := by
  refine ⟨⟨?_, ?_⟩, ?_, ?_, ?_⟩
  · show rchainP a (next + 1) (_ :: st.rtlfs)
    exact ⟨rfl, Nat.le_refl _, hch⟩
  · intro r hmem
    rcases List.mem_cons.mp hmem with hEq | hmem2
    · subst hEq
      exact ⟨by simp, rfl⟩
    · exact hrec r hmem2
  · simp [openNew]
  · rfl
  · simp only [sumPC, openNew, List.map_cons, List.sum_cons]
    omega

theorem scanStep_open (st : ScanState) (a next : Nat) (p : List String)
    (h : StInv st a next) (hne : st.rtlfs ≠ []) :
    StInv (scanStep st next p) a (next + 1) ∧ (scanStep st next p).rtlfs ≠ [] ∧
      (scanStep st next p).warnings = st.warnings ∧
      sumPC (scanStep st next p) = sumPC st + 1 := by
  obtain ⟨hch, hrec⟩ := h
  obtain ⟨c, rest, hr⟩ : ∃ c rest, st.rtlfs = c :: rest := by
    cases hcase : st.rtlfs with
    | nil => exact absurd hcase hne
    | cons c rest => exact ⟨c, rest, rfl⟩
  cases hid : (parse_tfl_page p).id with
  | none =>
      have hstep : scanStep st next p = extendCur st next := by
        simp [scanStep, hid, hr]
      rw [hstep]
      exact extendCur_inv st a next c rest hr hch hrec
  | some tid =>
      by_cases hsame : c.id = tid
      · have hstep : scanStep st next p = extendCur st next := by
          simp [scanStep, hid, hr, hsame]
        rw [hstep]
        exact extendCur_inv st a next c rest hr hch hrec
      · have hstep : scanStep st next p = openNew st next (parse_tfl_page p) tid := by
          simp [scanStep, hid, hr, hsame]
        rw [hstep]
        exact openNew_inv st a next (parse_tfl_page p) tid hch hrec

theorem procPages_nil : procPages [] = [] := rfl

theorem procPages_cons_term (p : List String) (rest : List (List String))
    (h : is_termination p = true) : procPages (p :: rest) = [] := by
  simp [procPages, List.takeWhile_cons, h]

theorem procPages_cons_go (p : List String) (rest : List (List String))
    (h : is_termination p = false) :
    procPages (p :: rest) = p :: procPages rest := by
  simp [procPages, List.takeWhile_cons, h]

theorem scanPages_open (pages : List (List String)) :
    ∀ (st : ScanState) (a next : Nat), StInv st a next → st.rtlfs ≠ [] →
      StInv (scanPages st next pages) a (next + (procPages pages).length) ∧
      (scanPages st next pages).rtlfs ≠ [] ∧
      (scanPages st next pages).warnings = st.warnings ∧
      sumPC (scanPages st next pages) = sumPC st + (procPages pages).length := by
  induction pages with
  | nil =>
      intro st a next h hne
      exact ⟨h, hne, rfl, rfl⟩
  | cons p rest ih =>
      intro st a next h hne
      by_cases hterm : is_termination p
      · rw [procPages_cons_term p rest hterm]
        have hpr : scanPages st next (p :: rest) = st := by simp [scanPages, hterm]
        rw [hpr]
        exact ⟨h, hne, rfl, rfl⟩
      · rw [procPages_cons_go p rest (by simpa using hterm)]
        have hstep := scanStep_open st a next p h hne
        have hrest := ih (scanStep st next p) a (next + 1) hstep.1 hstep.2.1
        have hunf : scanPages st next (p :: rest) =
            scanPages (scanStep st next p) (next + 1) rest := by
          simp [scanPages, hterm]
        rw [hunf]
        refine ⟨?_, hrest.2.1, ?_, ?_⟩
        · have e : next + 1 + (procPages rest).length =
              next + (p :: procPages rest).length := by
            simp only [List.length_cons]; omega
          rw [← e]
          exact hrest.1
        · rw [hrest.2.2.1, hstep.2.2.1]
        · rw [hrest.2.2.2, hstep.2.2.2]
          simp only [List.length_cons]
          omega

theorem scanPages_fromEmpty (pages : List (List String)) :
    ∀ (st : ScanState) (next : Nat), st.rtlfs = [] →
      (match firstIdIdx (procPages pages) with
       | none => (scanPages st next pages).rtlfs = []
       | some i =>
           StInv (scanPages st next pages) (next + i) (next + (procPages pages).length) ∧
           (scanPages st next pages).rtlfs ≠ []) := by
  induction pages with
  | nil =>
      intro st next hemp
      simpa [scanPages, procPages, firstIdIdx] using hemp
  | cons p rest ih =>
      intro st next hemp
      by_cases hterm : is_termination p
      · rw [procPages_cons_term p rest hterm]
        simp only [firstIdIdx]
        simpa [scanPages, hterm] using hemp
      · rw [procPages_cons_go p rest (by simpa using hterm)]
        have hunf : scanPages st next (p :: rest) =
            scanPages (scanStep st next p) (next + 1) rest := by
          simp [scanPages, hterm]
        cases hid : (parse_tfl_page p).id with
        | none =>
            have hhas : pageHasId p = false := by simp [pageHasId, hid]
            have hstep : scanStep st next p = { st with warnings := st.warnings + 1 } := by
              simp [scanStep, hid, hemp]
            have hres := ih { st with warnings := st.warnings + 1 } (next + 1) hemp
            simp only [firstIdIdx, hhas, if_neg Bool.false_ne_true]
            rw [hunf, hstep]
            cases hfind : firstIdIdx (procPages rest) with
            | none =>
                rw [hfind] at hres
                simpa using hres
            | some j =>
                rw [hfind] at hres
                simp only [Option.map_some']
                have e1 : next + (j + 1) = next + 1 + j := by omega
                have e2 : next + (p :: procPages rest).length =
                    next + 1 + (procPages rest).length := by
                  simp only [List.length_cons]; omega
                rw [e1, e2]
                exact hres
        | some tid =>
            have hhas : pageHasId p = true := by simp [pageHasId, hid]
            have hstep : scanStep st next p = openNew st next (parse_tfl_page p) tid := by
              simp [scanStep, hid, hemp]
            have hch0 : rchainP next next st.rtlfs := by rw [hemp]; rfl
            have hrec0 : ∀ r ∈ st.rtlfs, recOK r := by rw [hemp]; simp
            have hopen := openNew_inv st next next (parse_tfl_page p) tid hch0 hrec0
            have hrest := scanPages_open rest (openNew st next (parse_tfl_page p) tid)
              next (next + 1) hopen.1 hopen.2.1
            simp only [firstIdIdx, hhas, if_pos rfl]
            rw [hunf, hstep]
            have e2 : next + (p :: procPages rest).length =
                next + 1 + (procPages rest).length := by
              simp only [List.length_cons]; omega
            refine ⟨?_, hrest.2.1⟩
            have e0 : next + 0 = next := by omega
            rw [e0, e2]
            exact hrest.1

/-- C1 (amended): the records produced by the scan of pages 43 .. end form
page ranges that are in page order, pairwise non-overlapping and gap-free,
and cover exactly the pages from the first processed page on which the
Classifier finds a TLF identity (page `43 + i`) up to the page before the
termination page (or the end of the document).  Processed pages before that
first identified page are covered by no record, and when no processed page
yields an identity there are no records at all — coverage does not in
general start at page 43 as the original claim states. -/
theorem scan_ranges_chain_and_cover (doc : List (List String)) :
    match firstIdIdx (procPages (doc.drop 42)) with
    | none => tlfsOf (runScan doc) = []
    | some i =>
        chainFrom (43 + i) (tlfsOf (runScan doc)) = true ∧
        coveredPages (tlfsOf (runScan doc)) =
          List.range' (43 + i) ((procPages (doc.drop 42)).length - i) := by
  have h := scanPages_fromEmpty (doc.drop 42) initState 43 rfl
  cases hfi : firstIdIdx (procPages (doc.drop 42)) with
  | none =>
      rw [hfi] at h
      simpa [runScan, tlfsOf] using h
  | some i =>
      rw [hfi] at h
      obtain ⟨hinv, hne⟩ := h
      obtain ⟨hch, hrec⟩ := hinv
      have hcc := rchain_to_chain _ (43 + i) (43 + (procPages (doc.drop 42)).length) hch
      have hle := rchainP_le _ (43 + i) (43 + (procPages (doc.drop 42)).length) hch
      constructor
      · exact (chainFrom_iff _ _).mpr hcc.1
      · have hcov := chainFromP_covered _ (43 + i) hcc.1
        show coveredPages ((scanPages initState 43 (doc.drop 42)).rtlfs.reverse) = _
        rw [hcov, hcc.2]
        have : 43 + (procPages (doc.drop 42)).length - (43 + i) =
            (procPages (doc.drop 42)).length - i := by omega
        rw [this]

/-- Witness for the amended C1 theorem at the concrete document `scn1Doc`. -/
theorem scan_ranges_chain_and_cover_witness :
    chainFrom (43 + 0) (tlfsOf (runScan scn1Doc)) = true ∧
    coveredPages (tlfsOf (runScan scn1Doc)) =
      List.range' (43 + 0) ((procPages (scn1Doc.drop 42)).length - 0) := by
  have h := scan_ranges_chain_and_cover scn1Doc
  rw [show firstIdIdx (procPages (scn1Doc.drop 42)) = some 0 from by decide] at h
  exact h

/-- C3: at every point during and after the scan (after any number `k` of
processed pages), every record satisfies
`page_count = lastPage - firstPage + 1`. -/
theorem page_count_matches_range (doc : List (List String)) (k : Nat) (r : TlfRecord)
    (hr : r ∈ tlfsOf (scanPages initState 43 ((doc.drop 42).take k))) :
    r.page_count = r.lastPage - r.firstPage + 1 := by
  have h := scanPages_fromEmpty ((doc.drop 42).take k) initState 43 rfl
  cases hfi : firstIdIdx (procPages ((doc.drop 42).take k)) with
  | none =>
      rw [hfi] at h
      rw [tlfsOf, h] at hr
      simp at hr
  | some i =>
      rw [hfi] at h
      obtain ⟨hinv, hne⟩ := h
      obtain ⟨hch, hrec⟩ := hinv
      have hmem : r ∈ (scanPages initState 43 ((doc.drop 42).take k)).rtlfs := by
        simpa [tlfsOf] using hr
      exact (hrec r hmem).1

/-- Witness for the C3 theorem at the concrete document `scn1Doc`. -/
theorem page_count_matches_range_witness :
    scn1Record ∈ tlfsOf (scanPages initState 43 ((scn1Doc.drop 42).take 1)) ∧
    scn1Record.page_count = scn1Record.lastPage - scn1Record.firstPage + 1 :=
  ⟨by decide, page_count_matches_range scn1Doc 1 scn1Record (by decide)⟩

/-- C8 (amended): the sanitized id never contains a space or a newline and
every record's output file is `pdf/<sanitized-id>.pdf` (a deterministic
function of the id alone) — but the sanitization replaces each space with an
underscore and removes newlines, rather than removing spaces. -/
theorem sanitized_file_names :
    (∀ s : String, ∀ c ∈ (sanitizeId s).toList, c ≠ ' ' ∧ c ≠ '\n') ∧
    (∀ (doc : List (List String)) (k : Nat) (r : TlfRecord),
      r ∈ tlfsOf (scanPages initState 43 ((doc.drop 42).take k)) →
      r.file = "pdf/" ++ sanitizeId r.id ++ ".pdf") := by
  constructor
  · intro s c hc
    have hc2 : c ∈ (s.toList.map (fun c => if c = ' ' then '_' else c)).filter
        (fun c => decide (c ≠ '\n')) := hc
    rw [List.mem_filter] at hc2
    obtain ⟨hmem, hnl⟩ := hc2
    refine ⟨?_, by simpa using hnl⟩
    rw [List.mem_map] at hmem
    obtain ⟨b, hb, hbeq⟩ := hmem
    by_cases hsp : b = ' '
    · rw [if_pos hsp] at hbeq
      rw [← hbeq]
      decide
    · rw [if_neg hsp] at hbeq
      rw [← hbeq]
      exact hsp
  · intro doc k r hr
    have h := scanPages_fromEmpty ((doc.drop 42).take k) initState 43 rfl
    cases hfi : firstIdIdx (procPages ((doc.drop 42).take k)) with
    | none =>
        rw [hfi] at h
        rw [tlfsOf, h] at hr
        simp at hr
    | some i =>
        rw [hfi] at h
        obtain ⟨hinv, hne⟩ := h
        obtain ⟨hch, hrec⟩ := hinv
        have hmem : r ∈ (scanPages initState 43 ((doc.drop 42).take k)).rtlfs := by
          simpa [tlfsOf] using hr
        exact (hrec r hmem).2

/-- Witness for the amended C8 theorem at concrete inputs. -/
theorem sanitized_file_names_witness :
    'T' ∈ (sanitizeId "Table 14.1.1").toList ∧ ('T' ≠ ' ' ∧ 'T' ≠ '\n') ∧
    scn1Record ∈ tlfsOf (scanPages initState 43 ((scn1Doc.drop 42).take 1)) ∧
    scn1Record.file = "pdf/" ++ sanitizeId scn1Record.id ++ ".pdf" :=
  ⟨by decide, sanitized_file_names.1 "Table 14.1.1" 'T' (by decide), by decide,
   sanitized_file_names.2 scn1Doc 1 scn1Record (by decide)⟩

/-- C10: from any reachable scan state with an open record (`rtlfs ≠ []`,
satisfying the scan invariant), continuing the scan over any further pages
keeps a record open (the current-record state is never cleared), emits no
further `no identifiable TLF` warnings, and folds every processed
(non-termination) page into exactly one record: the total of the records'
page counts grows by exactly the number of processed pages. -/
theorem open_record_persists (pages : List (List String)) (st : ScanState)
    (a next : Nat) (h : StInv st a next) (hne : st.rtlfs ≠ []) :
    (scanPages st next pages).rtlfs ≠ [] ∧
    (scanPages st next pages).warnings = st.warnings ∧
    sumPC (scanPages st next pages) = sumPC st + (procPages pages).length := by
  have h2 := scanPages_open pages st a next h hne
  exact ⟨h2.2.1, h2.2.2.1, h2.2.2.2⟩

/-- Witness for the C10 theorem at a concrete open state and page list. -/
theorem open_record_persists_witness :
    StInv openSt 43 44 ∧ openSt.rtlfs ≠ [] ∧
    ((scanPages openSt 44 [["continuation text"]]).rtlfs ≠ [] ∧
     (scanPages openSt 44 [["continuation text"]]).warnings = openSt.warnings ∧
     sumPC (scanPages openSt 44 [["continuation text"]]) =
       sumPC openSt + (procPages [["continuation text"]]).length) := by
  have hinv : StInv openSt 43 44 := by
    refine ⟨⟨rfl, by decide, rfl⟩, ?_⟩
    intro r hmem
    have hrEq : r = scn1Record := by simpa [openSt] using hmem
    rw [hrEq]
    exact ⟨by decide, by decide⟩
  exact ⟨hinv, by decide,
    open_record_persists [["continuation text"]] openSt 43 44 hinv (by decide)⟩

/-- C6: on a page whose non-empty lines start with `Table 14.1.1`,
`Demographics`, `Population: Safety` and whose bottom lines include
`Source:   prog1.sas   02JUN2023`, the Classifier yields id `Table 14.1.1`,
kind Table, title `Demographics`, population `Safety` and sourceProgram
`prog1.sas`; and when that page is page 43, the record opened from it has
firstPage 43, lastPage 43 and pageCount 1. -/
theorem scenario1_classification :
    parse_tfl_page scn1Page =
      { id := some "Table 14.1.1", type := "table", title := "Demographics",
        population := "Safety", source_program := "prog1.sas" } ∧
    tlfsOf (runScan scn1Doc) = [scn1Record] := by
  constructor
  · decide
  · decide

/-- C9: the code builds `extraction_date` as `isoformat()[:-13] + "Z"`,
which assumes the fractional-seconds part is always present.  When the
clock returns a time with `microsecond == 0`, Python's `isoformat` omits
`.ffffff`, and the slice cuts into the time of day: the result is the
malformed string `2023-06-02T1Z` instead of `2023-06-02T12:34:56Z`.
With a nonzero microsecond the field is well-formed. -/
theorem extraction_date_zero_microsecond_bug :
    extractionDate ⟨2023, 6, 2, 12, 34, 56, 0⟩ = "2023-06-02T1Z" ∧
    isIsoZ (extractionDate ⟨2023, 6, 2, 12, 34, 56, 0⟩) = false ∧
    extractionDate ⟨2023, 6, 2, 12, 34, 56, 123456⟩ = "2023-06-02T12:34:56Z" ∧
    isIsoZ (extractionDate ⟨2023, 6, 2, 12, 34, 56, 123456⟩) = true := by
  refine ⟨by decide, by decide, by decide, by decide⟩

/-- C1 counterexample: on `noHeading43Doc` (44 pages, no termination page,
page 43 without an identifiable heading) the produced records cover exactly
page 44, not the claimed pages 43 through 44: the page-43 scan drops
unclassifiable pages seen before the first record opens. -/
theorem coverage_not_from_page_43 :
    coveredPages (tlfsOf (runScan noHeading43Doc)) = [44] ∧
    noHeading43Doc.length = 44 ∧
    (noHeading43Doc.drop 42).all (fun p => !is_termination p) = true ∧
    coveredPages (tlfsOf (runScan noHeading43Doc)) ≠ List.range' 43 2 := by
  refine ⟨by decide, by decide, by decide, by decide⟩

/-- C2 counterexample: the Validator accepts a manifest whose single TLF
record starts at page 50 — no gap and no overlap are reported and no
message is produced, although the ranges do not collectively begin at
page 43.  The walk never checks the first record's `firstPage`. -/
theorem validator_accepts_ranges_not_starting_at_43 :
    run_validation_pages [⟨"Table X", 50, 50⟩] =
      { noGaps := true, noOverlaps := true, msgs := [] } ∧
    (50 : Nat) ≠ 43 := by
  refine ⟨by decide, by decide⟩

/-- C8 counterexample: the id `Table 14.1.1` yields the output file
`pdf/Table_14.1.1.pdf` — the space is replaced by an underscore
(`id.replace(" ", "_")`), not removed as the claim states, which would give
`pdf/Table14.1.1.pdf`. -/
theorem sanitize_underscore_not_removal :
    (tlfsOf (runScan scn1Doc)).map (fun r => r.file) = ["pdf/Table_14.1.1.pdf"] ∧
    "pdf/" ++ removeSpacesAndNewlines "Table 14.1.1" ++ ".pdf" = "pdf/Table14.1.1.pdf" ∧
    "pdf/Table_14.1.1.pdf" ≠ "pdf/Table14.1.1.pdf" := by
  refine ⟨by decide, by decide, by decide⟩

/-- C4: for a source document with fewer than 43 pages, extraction logs the
fatal `too few pages` error, builds no manifest, and writes no files at all
(no narrative or TLF PDF or text file, no `manifest.json`, no
`manifest.csv`), whatever the dry-run flag.  (The output directories may
already have been created before the page count is checked, but no file is
ever written into them.) -/
theorem too_few_pages_no_output (inputPath docName outputDir : String)
    (doc : List (List String)) (dryRun noText : Bool) (now : UtcTime)
    (hlen : doc.length < 43) :
    (extract_tlfs inputPath true doc docName outputDir dryRun noText now).manifest = none ∧
    ((extract_tlfs inputPath true doc docName outputDir dryRun noText now).effects).filter
      isFileWrite = [] ∧
    Effect.logError ("Document has too few pages (" ++ toString doc.length ++
        "). Cannot extract CSR.")
      ∈ (extract_tlfs inputPath true doc docName outputDir dryRun noText now).effects := by
  simp only [extract_tlfs]
  rw [if_neg (by simp)]
  rw [if_pos hlen]
  refine ⟨rfl, ?_, ?_⟩
  · cases dryRun <;> cases noText <;> simp [isFileWrite]
  · cases dryRun <;> cases noText <;> simp

/-- Witness for the C4 theorem at a concrete 3-page document. -/
theorem too_few_pages_no_output_witness :
    (List.replicate 3 ([] : List String)).length < 43 ∧
    ((extract_tlfs "in.pdf" true (List.replicate 3 ([] : List String)) "in.pdf" "out"
        false false ⟨2023, 6, 2, 1, 2, 3, 4⟩).manifest = none ∧
     ((extract_tlfs "in.pdf" true (List.replicate 3 ([] : List String)) "in.pdf" "out"
        false false ⟨2023, 6, 2, 1, 2, 3, 4⟩).effects).filter isFileWrite = [] ∧
     Effect.logError ("Document has too few pages (" ++
         toString (List.replicate 3 ([] : List String)).length ++ "). Cannot extract CSR.")
       ∈ (extract_tlfs "in.pdf" true (List.replicate 3 ([] : List String)) "in.pdf" "out"
           false false ⟨2023, 6, 2, 1, 2, 3, 4⟩).effects) :=
  ⟨by decide, too_few_pages_no_output "in.pdf" "in.pdf" "out"
      (List.replicate 3 ([] : List String)) false false ⟨2023, 6, 2, 1, 2, 3, 4⟩ (by decide)⟩

/-- C5: with the same clock value, a dry run produces exactly the same
in-memory manifest (TLF records, page ranges, titles) and the same summary
counters as a non-dry run, and its effect trace touches the filesystem in no
way: no directory is created and no PDF, text or manifest file is written. -/
theorem dry_run_identical (inputPath : String) (inputExists : Bool)
    (doc : List (List String)) (docName outputDir : String) (noText : Bool)
    (now : UtcTime) :
    (extract_tlfs inputPath inputExists doc docName outputDir true noText now).manifest =
      (extract_tlfs inputPath inputExists doc docName outputDir false noText now).manifest ∧
    (extract_tlfs inputPath inputExists doc docName outputDir true noText now).tableCount =
      (extract_tlfs inputPath inputExists doc docName outputDir false noText now).tableCount ∧
    (extract_tlfs inputPath inputExists doc docName outputDir true noText now).figureCount =
      (extract_tlfs inputPath inputExists doc docName outputDir false noText now).figureCount ∧
    (extract_tlfs inputPath inputExists doc docName outputDir true noText now).tflPagesTotal =
      (extract_tlfs inputPath inputExists doc docName outputDir false noText now).tflPagesTotal ∧
    (extract_tlfs inputPath inputExists doc docName outputDir true noText now).warningsCount =
      (extract_tlfs inputPath inputExists doc docName outputDir false noText now).warningsCount ∧
    ((extract_tlfs inputPath inputExists doc docName outputDir true noText now).effects).filter
      isFsEffect = [] := by
  simp only [extract_tlfs]
  by_cases hex : inputExists = false
  · rw [if_pos hex, if_pos hex]
    simp [isFsEffect, isFileWrite]
  · rw [if_neg hex, if_neg hex]
    by_cases hlen : doc.length < 43
    · rw [if_pos hlen, if_pos hlen]
      simp [isFsEffect, isFileWrite]
    · rw [if_neg hlen, if_neg hlen]
      simp [isFsEffect, isFileWrite]

/-! ### Source-program extraction lemmas (C7) -/

theorem mk_ne_empty (l : List Char) (h : l ≠ []) : String.mk l ≠ "" := by
  intro hEq
  exact h (congrArg String.toList hEq)

theorem splitGo_headD_ne (xs : List Char) :
    ∀ cur ws, cur ≠ [] → (splitGo xs cur ws).headD "" ≠ "" := by
  induction xs with
  | nil =>
      intro cur ws hc
      simp only [splitGo]
      by_cases hws : 2 ≤ ws.length
      · rw [if_pos hws]
        simpa using mk_ne_empty cur.reverse (by simpa using hc)
      · rw [if_neg hws]
        simpa using mk_ne_empty (ws ++ cur).reverse (by simp [hc])
  | cons c cs ih =>
      intro cur ws hc
      simp only [splitGo]
      by_cases h1 : c.isWhitespace
      · rw [if_pos h1]
        exact ih cur (c :: ws) hc
      · rw [if_neg h1]
        by_cases h2 : 2 ≤ ws.length
        · rw [if_pos h2]
          simpa using mk_ne_empty cur.reverse (by simpa using hc)
        · rw [if_neg h2]
          exact ih (c :: (ws ++ cur)) [] (by simp)

theorem dropWhile_cons_head {α : Type} (p : α → Bool) (l : List α) (c : α)
    (cs : List α) (h : l.dropWhile p = c :: cs) : p c = false := by
  induction l with
  | nil => simp [List.dropWhile] at h
  | cons x xs ih =>
      by_cases hx : p x
      · rw [List.dropWhile_cons_of_pos hx] at h
        exact ih h
      · rw [List.dropWhile_cons_of_neg hx] at h
        injection h with h1 h2
        rw [← h1]
        simpa using hx

theorem trimChars_head_not_ws (l : List Char) (c : Char) (cs : List Char)
    (h : trimChars l = c :: cs) : c.isWhitespace = false := by
  obtain ⟨t, ht⟩ :=
    List.dropWhile_suffix (l := (l.dropWhile Char.isWhitespace).reverse) Char.isWhitespace
  have h2 := congrArg List.reverse ht
  rw [List.reverse_append, List.reverse_reverse] at h2
  have h3 : trimChars l ++ t.reverse = l.dropWhile Char.isWhitespace := h2
  rw [h] at h3
  have hdd : l.dropWhile Char.isWhitespace = c :: (cs ++ t.reverse) := by
    rw [← h3]; simp
  exact dropWhile_cons_head Char.isWhitespace l c (cs ++ t.reverse) hdd

theorem splitRuns2_strip_headD (s : String) :
    (splitRuns2 (pyStrip s)).headD "" =
      ((splitRuns2 (pyStrip s)).filter (fun t => t ≠ "")).headD "" := by
  cases htc : trimChars s.toList with
  | nil =>
      have hps : pyStrip s = "" := by unfold pyStrip; rw [htc]
      rw [hps]
      decide
  | cons c cs =>
      have hps : pyStrip s = String.mk (c :: cs) := by unfold pyStrip; rw [htc]
      have hcws : c.isWhitespace = false := trimChars_head_not_ws s.toList c cs htc
      rw [hps]
      show (splitGo (c :: cs) [] []).headD "" = ((splitGo (c :: cs) [] []).filter _).headD ""
      have hstep : splitGo (c :: cs) [] [] = splitGo cs [c] [] := by
        simp [splitGo, hcws]
      rw [hstep]
      have hne := splitGo_headD_ne cs [c] [] (by simp)
      cases hres : splitGo cs [c] [] with
      | nil => simp
      | cons x xs =>
          rw [hres] at hne
          simp only [List.headD_cons] at hne ⊢
          rw [List.filter_cons, if_pos (by simpa using hne)]
          simp

theorem srcFrom_eq_find (L : List String) :
    srcFrom L = (match L.find? (fun l => startsWithL (lowerS l) "source:") with
      | none => ""
      | some l => (splitRuns2 (pyStrip (dropS l 7))).headD "") := by
  induction L with
  | nil => rfl
  | cons l rest ih =>
      by_cases hl : startsWithL (lowerS l) "source:"
      · have hfind : List.find? (fun l2 => startsWithL (lowerS l2) "source:") (l :: rest) =
            some l := List.find?_cons_of_pos (p := fun l2 => startsWithL (lowerS l2) "source:") rest hl
        rw [hfind]
        simp [srcFrom, hl]
      · have hfind : List.find? (fun l2 => startsWithL (lowerS l2) "source:") (l :: rest) =
            List.find? (fun l2 => startsWithL (lowerS l2) "source:") rest :=
          List.find?_cons_of_neg (p := fun l2 => startsWithL (lowerS l2) "source:") rest
            (by simpa using hl)
        rw [hfind]
        simpa [srcFrom, hl] using ih

theorem last15rev_eq (L : List String) : last15rev L = L.reverse.take 15 := by
  show (L.drop (L.length - 15)).reverse = L.reverse.take 15
  exact List.take_reverse.symm

/-- C7: for every page text, the Classifier\'s `source_program` equals the
spec-side definition: scan the last 15 non-empty lines in reverse (bottom of
page up) for the first line whose lowercase form starts with `"source:"`;
the result is the first token of the (trimmed) text after `"source:"` when
split on runs of two-or-more whitespace characters, and it is absent when no
such line exists among those 15 lines. -/
theorem source_program_refines_spec (raw : List String) :
    (parse_tfl_page raw).source_program = specSourceProgram (stripLines raw) := by
  show srcFrom (last15rev (stripLines raw)) = _
  rw [last15rev_eq, srcFrom_eq_find]
  unfold specSourceProgram specFirstToken
  cases hf : ((stripLines raw).reverse.take 15).find?
      (fun l => startsWithL (lowerS l) "source:") with
  | none => rfl
  | some l => exact splitRuns2_strip_headD (dropS l 7)

/-! ### Validator walk lemmas (C2) -/

theorem gapStep_flags (acc : GapCheck) (exp : Nat) (t : MTlfEntry) :
    (gapStep acc exp t).noGaps = (acc.noGaps && decide (t.startP ≤ exp)) ∧
    (gapStep acc exp t).noOverlaps = (acc.noOverlaps && decide (exp ≤ t.startP)) := by
  unfold gapStep
  by_cases h1 : t.startP > exp
  · rw [if_pos h1]
    refine ⟨?_, ?_⟩
    · rw [decide_eq_false (by omega)]
      simp
    · rw [decide_eq_true (by omega)]
      simp
  · rw [if_neg h1]
    by_cases h2 : t.startP < exp
    · rw [if_pos h2]
      refine ⟨?_, ?_⟩
      · rw [decide_eq_true (by omega)]
        simp
      · rw [decide_eq_false (by omega)]
        simp
    · rw [if_neg h2]
      refine ⟨?_, ?_⟩
      · rw [decide_eq_true (by omega)]
        simp
      · rw [decide_eq_true (by omega)]
        simp

theorem gapWalk_some_flags (ts : List MTlfEntry) :
    ∀ (exp : Nat) (acc : GapCheck),
      (gapWalk (some exp) acc ts).noGaps = (acc.noGaps && gapsOK exp ts) ∧
      (gapWalk (some exp) acc ts).noOverlaps = (acc.noOverlaps && overlapsOK exp ts) := by
  induction ts with
  | nil => intro exp acc; simp [gapWalk, gapsOK, overlapsOK]
  | cons t rest ih =>
      intro exp acc
      simp only [gapWalk]
      obtain ⟨ihg, iho⟩ := ih (t.endP + 1) (gapStep acc exp t)
      obtain ⟨hg, ho⟩ := gapStep_flags acc exp t
      rw [ihg, iho, hg, ho]
      constructor
      · simp [gapsOK, Bool.and_assoc]
      · simp [overlapsOK, Bool.and_assoc]

theorem gapsOK_zip (rest : List MTlfEntry) :
    ∀ t : MTlfEntry, gapsOK (t.endP + 1) rest =
      (List.zip (t :: rest) rest).all (fun pr => decide (pr.2.startP ≤ pr.1.endP + 1)) := by
  induction rest with
  | nil => intro t; simp [gapsOK]
  | cons u rest2 ih =>
      intro t
      simp only [gapsOK, List.zip_cons_cons, List.all_cons]
      rw [ih u]

theorem overlapsOK_zip (rest : List MTlfEntry) :
    ∀ t : MTlfEntry, overlapsOK (t.endP + 1) rest =
      (List.zip (t :: rest) rest).all (fun pr => decide (pr.1.endP + 1 ≤ pr.2.startP)) := by
  induction rest with
  | nil => intro t; simp [overlapsOK]
  | cons u rest2 ih =>
      intro t
      simp only [overlapsOK, List.zip_cons_cons, List.all_cons]
      rw [ih u]

/-- C2 (amended): walking the manifest\'s `tlfs` list in order, the Validator
reports a page gap before a record exactly when its `firstPage` exceeds the
previous record\'s `lastPage + 1`, and a page overlap exactly when it is
smaller; the first record is never checked against page 43 (the walk only
compares consecutive records).  In particular, TLF A with pages [43,44]
followed by TLF B with pages [46,46] yields exactly the page-gap report
`Page gap before Table B (expected 45, got 46)`. -/
theorem validator_gap_overlap_walk :
    (∀ ts : List MTlfEntry,
      (run_validation_pages ts).noGaps =
        (List.zip ts ts.tail).all (fun pr => decide (pr.2.startP ≤ pr.1.endP + 1)) ∧
      (run_validation_pages ts).noOverlaps =
        (List.zip ts ts.tail).all (fun pr => decide (pr.1.endP + 1 ≤ pr.2.startP))) ∧
    run_validation_pages [⟨"Table A", 43, 44⟩, ⟨"Table B", 46, 46⟩] =
      { noGaps := false, noOverlaps := true,
        msgs := ["❌ Page gap before Table B (expected 45, got 46)"] } := by
  constructor
  · intro ts
    cases ts with
    | nil => simp [run_validation_pages, gapWalk]
    | cons t rest =>
        have h := gapWalk_some_flags rest (t.endP + 1)
          { noGaps := true, noOverlaps := true, msgs := [] }
        have hunf : run_validation_pages (t :: rest) =
            gapWalk (some (t.endP + 1)) { noGaps := true, noOverlaps := true, msgs := [] }
              rest := rfl
        rw [hunf]
        constructor
        · rw [h.1]
          simp only [List.tail_cons, Bool.true_and]
          exact gapsOK_zip rest t
        · rw [h.2]
          simp only [List.tail_cons, Bool.true_and]
          exact overlapsOK_zip rest t
  · decide

end Tfl


